import Mathlib

set_option maxHeartbeats 1000000

/-! Verification of the signal-preprocessing and rule-simulation engine in
`backend/app/services/engine.py`.  The Python functions are shallowly embedded
as executable Lean definitions: timestamps become integer epoch seconds,
metric values become rationals, a missing value becomes `none`, and code that
can raise (`points[-1]` on an empty list, `cond["value"]` on a missing key)
returns `Option`.  Definitions follow the source line by line; the two
definitions whose doc comments say so follow the specification's words
instead, for comparison. -/

/-- One telemetry sample `{"ts": ..., "watts": ..., "on": ..., "lux": ...}` as
built by every caller in `main.py`; `ts` is integer epoch seconds and a
missing metric value is `none`. -/
structure Point where
  ts : Int
  watts : Option ℚ := none
  on_ : Option ℚ := none  -- the "on" metric; `on` is reserved in Lean
  lux : Option ℚ := none
deriving DecidableEq, Repr

/-- `p.get(metric)` on a sample dict: the value of the named metric, `none`
for an unknown metric name. -/
def getMetric (p : Point) (m : String) : Option ℚ :=
  if m = "watts" then p.watts
  else if m = "on" then p.on_
  else if m = "lux" then p.lux
  else none

/-- `p[metric] = v` on a sample dict, for the three metric keys the engine
ever writes. -/
def setMetric (p : Point) (m : String) (v : ℚ) : Point :=
  if m = "watts" then { p with watts := some v }
  else if m = "on" then { p with on_ := some v }
  else if m = "lux" then { p with lux := some v }
  else p

/-- Ordering of samples by timestamp, the key of `sorted(points, key=lambda x: x["ts"])`. -/
def tsLe (a b : Point) : Prop := a.ts ≤ b.ts

instance : DecidableRel tsLe := fun a b => inferInstanceAs (Decidable (a.ts ≤ b.ts))

instance : IsTotal Point tsLe := ⟨fun a b => le_total a.ts b.ts⟩

instance : IsTrans Point tsLe := ⟨fun _ _ _ h h' => le_trans h h'⟩

/-- `sorted(points, key=lambda x: x["ts"])` (a stable sort). -/
def sortByTs (l : List Point) : List Point := l.insertionSort tsLe

/-- Ascending sort of rational values (`numpy` and `statistics` sort
internally before picking order statistics). -/
def sortVals (l : List ℚ) : List ℚ := l.insertionSort (· ≤ ·)

/-- Linear-interpolation order statistic on an already sorted list: with
`h = q·(n−1)`, the value `s[⌊h⌋] + (h − ⌊h⌋)·(s[⌈h⌉] − s[⌊h⌋])`.  This is
`numpy.quantile`'s default `linear` method. -/
def interpQ (q : ℚ) (s : List ℚ) : ℚ :=
  let n := s.length
  let h : ℚ := q * ((n : ℚ) - 1)
  let l : ℕ := (⌊h⌋).toNat
  let u : ℕ := (⌈h⌉).toNat
  (s.getD l 0) + (h - (l : ℚ)) * ((s.getD u 0) - (s.getD l 0))

/-- `np.quantile(vals, q)` (linear interpolation, the default). -/
def npQuantile (q : ℚ) (vals : List ℚ) : ℚ := interpQ q (sortVals vals)

/-- Executable maximum of two rationals (`max(a, b)`); written with an
explicit `if` so that concrete instances evaluate inside the kernel. -/
def qmax (a b : ℚ) : ℚ := if a ≤ b then b else a

/-- Executable minimum of two rationals (`min(a, b)`). -/
def qmin (a b : ℚ) : ℚ := if a ≤ b then a else b

theorem qmax_eq (a b : ℚ) : qmax a b = max a b := by
  unfold qmax
  rcases le_total a b with h | h
  · rw [if_pos h, max_eq_right h]
  · rcases eq_or_lt_of_le h with rfl | hlt
    · simp
    · rw [if_neg (not_le.mpr hlt), max_eq_left h]

theorem qmin_eq (a b : ℚ) : qmin a b = min a b := by
  unfold qmin
  rcases le_total a b with h | h
  · rw [if_pos h, min_eq_left h]
  · rcases eq_or_lt_of_le h with rfl | hlt
    · simp
    · rw [if_neg (not_le.mpr hlt), min_eq_right h]

/-- `max(low, min(high, v))`, the clipping applied at line 22 of engine.py. -/
def clamp (low high v : ℚ) : ℚ := qmax low (qmin high v)

/-- `statistics.median`: middle element of the sorted values, or the mean of
the two middle elements for an even count. -/
def median (l : List ℚ) : ℚ :=
  let s := sortVals l
  let n := s.length
  if n % 2 = 1 then s.getD (n / 2) 0
  else (s.getD (n / 2 - 1) 0 + s.getD (n / 2) 0) / 2

/-- `statistics.median` of the present values, absent when no value is
present (the `if vals:` guard at line 37 of engine.py). -/
def medianOpt (l : List ℚ) : Option ℚ :=
  if l = [] then none else some (median l)

/-- The bucket start `t - (t % sampling_sec)` of line 27 of engine.py. -/
def bucketTs (sampling_sec : Int) (t : Int) : Int := t - t % sampling_sec

/-- Clip the named metric of one sample to `[low, high]` (lines 20–22 of
engine.py); samples with an absent value are untouched. -/
def clipPoint (metric : String) (low high : ℚ) (p : Point) : Point :=
  match getMetric p metric with
  | none => p
  | some v => setMetric p metric (clamp low high v)

/-- The IQR clipping bounds `[q1 - 3*iqr, q3 + 3*iqr]` of lines 17–19 of
engine.py, computed over all present values of the metric. -/
def clipBounds (points : List Point) (metric : String) : ℚ × ℚ :=
  let vals := (sortByTs points).filterMap (fun p => getMetric p metric)
  let q1 := npQuantile (1/4) vals
  let q3 := npQuantile (3/4) vals
  let iqr := q3 - q1
  (q1 - 3 * iqr, q3 + 3 * iqr)

/-- Median aggregation of one bucket's group (lines 34–39 of engine.py): a
fresh item with the bucket timestamp and, per metric, the median of the
present values or `None`. -/
def aggBucket (group : List Point) (b : Int) : Point :=
  { ts := b
    watts := medianOpt (group.filterMap (fun p => getMetric p "watts"))
    on_ := medianOpt (group.filterMap (fun p => getMetric p "on"))
    lux := medianOpt (group.filterMap (fun p => getMetric p "lux")) }

/-- `preprocess(points, metric, sampling_sec)` (lines 10–40 of engine.py):
sort by timestamp, IQR-clip the chosen metric (skipped when it has no
present value, in which case the sorted points are returned as they are),
bucket by `sampling_sec` and aggregate each bucket per metric by median,
emitting buckets in increasing order. -/
def preprocess (points : List Point) (metric : String) (sampling_sec : Int) : List Point :=
  if points = [] then []
  else
    let pts := sortByTs points
    let vals := pts.filterMap (fun p => getMetric p metric)
    if vals = [] then pts
    else
      let low := (clipBounds points metric).1
      let high := (clipBounds points metric).2
      let clipped := pts.map (clipPoint metric low high)
      let keys := ((clipped.map (fun p => bucketTs sampling_sec p.ts)).dedup).insertionSort (· ≤ ·)
      keys.map (fun b =>
        aggBucket (clipped.filter (fun p => bucketTs sampling_sec p.ts = b)) b)

/-- What the caller's list holds after `preprocess` returns: the clipping
loop at lines 20–22 of engine.py writes the clipped values back into the
caller's own sample dicts (the sort at line 13 rebinds the local name but
keeps the same dict objects), so after the call every present value of the
chosen metric has been clamped in place; the early returns at lines 11–12
and 15–16 leave the input untouched. -/
def preprocessInputAfter (points : List Point) (metric : String) : List Point :=
  if points = [] then points
  else
    let pts := sortByTs points
    let vals := pts.filterMap (fun p => getMetric p metric)
    if vals = [] then points
    else
      points.map (clipPoint metric (clipBounds points metric).1 (clipBounds points metric).2)

/-- A condition dict `{"op": ..., "value": ..., "min": ..., "max": ..., "for_sec": ...}`;
every key may be absent, exactly as with the open dicts the engine receives. -/
structure Cond where
  op : Option String := none
  value : Option ℚ := none
  min : Option ℚ := none
  max : Option ℚ := none
  for_sec : Option Int := none
deriving DecidableEq, Repr

/-- `condition_true(value, cond)` (lines 43–53 of engine.py).  A `None` value
is always false; an unknown (or missing) operator falls through to `False`;
reading a threshold key that is absent (`cond["value"]`, `cond["min"]`,
`cond["max"]`) raises `KeyError`, modelled as `none`. -/
def condition_true (value : Option ℚ) (cond : Cond) : Option Bool :=
  match value with
  | none => some false
  | some v =>
    if cond.op = some "gte" then cond.value.map (fun t => v ≥ t)
    else if cond.op = some "lte" then cond.value.map (fun t => v ≤ t)
    else if cond.op = some "between" then
      match cond.min, cond.max with
      | some a, some b => some (a ≤ v ∧ v ≤ b)
      | _, _ => none
    else some false

/-- One state definition `{"name": ..., "when": ...}` of a rule's `states`
list; both keys may be absent (`state.get("name", "UNKNOWN")`,
`state.get("when", {})`). -/
structure StateDef where
  name? : Option String := none
  when? : Option Cond := none
deriving DecidableEq, Repr

/-- The `drops_to_zero` pattern sub-dict: `enabled` truthiness and the
`min_drops` key read with default 2. -/
structure DropsCfg where
  enabled : Bool := false
  min_drops? : Option Int := none
deriving DecidableEq, Repr

/-- The rule's `patterns` sub-dict.  `simulate` reads only `drops_to_zero`;
the `oscillation`/`plateau`/`duty_cycle` sub-objects are never consulted by
any code under verification and are not represented. -/
structure Patterns where
  drops_to_zero : DropsCfg := {}
deriving DecidableEq, Repr

/-- A rule document as `simulate` consumes it: `rule.get("states", [])` and
`rule.get("patterns", {})`. -/
structure Rule where
  states : List StateDef := []
  patterns : Patterns := {}
deriving DecidableEq, Repr

/-- The debounce-counter dict, keyed by `f"{name}:{cond}"` (line 66 of
engine.py) — two states collide exactly when both name and condition dict
agree.  Every read is preceded by `setdefault(key, 0)`, so the dict is a
total map with default 0. -/
def Counters : Type := String × Cond → Int

/-- Point update of the counter map. -/
def updateCounter (c : Counters) (k : String × Cond) (v : Int) : Counters :=
  fun k' => if k' = k then v else c k'

/-- The counter key of one state definition: its name (default `"UNKNOWN"`)
together with its condition dict (default `{}`). -/
def stateKey (st : StateDef) : String × Cond :=
  (st.name?.getD "UNKNOWN", st.when?.getD {})

/-- The inner loop of `simulate` over `rule.get("states", [])` for one sample
(lines 63–73 of engine.py): per state, increment its counter by
`sampling_sec` when the condition holds and reset it to 0 otherwise, then
overwrite `new_state` with the state's name whenever the updated counter has
reached `cond.get("for_sec", sampling_sec)`.  `v` is `p.get(metric)`;
a `KeyError` inside `condition_true` aborts (returns `none`). -/
def runStates (sampling_sec : Int) (v : Option ℚ) :
    List StateDef → Counters → String → Option (Counters × String)
  | [], c, new_state => some (c, new_state)
  | st :: rest, c, new_state =>
    let cond := st.when?.getD {}
    let name := st.name?.getD "UNKNOWN"
    let key : String × Cond := (name, cond)
    match condition_true v cond with
    | none => none
    | some b =>
      let cnt : Int := if b then c key + sampling_sec else 0
      let c' := updateCounter c key cnt
      let new' := if cond.for_sec.getD sampling_sec ≤ cnt then name else new_state
      runStates sampling_sec v rest c' new'

/-- One state sample `{"ts": ..., "state": ...}` of `simulate`'s first
result list. -/
structure StateSample where
  ts : Int
  state : String
deriving DecidableEq, Repr

/-- An event payload: `{"from": ..., "to": ...}` for a state change,
`{"drops": ...}` for a drops-to-zero report. -/
inductive Payload where
  | change (fromState toState : String)
  | drops (n : Nat)
deriving DecidableEq, Repr

/-- An event `{"ts": ..., "type": ..., "payload": ...}`. -/
structure Event where
  ts : Int
  type : String
  payload : Payload
deriving DecidableEq, Repr

/-- The outer loop of `simulate` over the samples (lines 61–77 of
engine.py): run the per-state scan, emit a `STATE_CHANGE` event when the
selected state differs from the current one, update the current state and
record it for the sample. -/
def runPoints (sampling_sec : Int) (metric : String) (states : List StateDef) :
    List Point → Counters → String → List StateSample → List Event →
    Option (Counters × String × List StateSample × List Event)
  | [], c, current, sts, evs => some (c, current, sts, evs)
  | p :: rest, c, current, sts, evs =>
    match runStates sampling_sec (getMetric p metric) states c current with
    | none => none
    | some (c', new_state) =>
      let evs' := if new_state ≠ current then
          evs ++ [⟨p.ts, "STATE_CHANGE", Payload.change current new_state⟩]
        else evs
      runPoints sampling_sec metric states rest c' new_state
        (sts ++ [⟨p.ts, new_state⟩]) evs'

/-- `p.get(metric) or 0` (lines 82–83 of engine.py): an absent value — and,
vacuously, a zero value, which Python treats as falsy — becomes 0. -/
def orZero (v : Option ℚ) : ℚ := v.getD 0

/-- The drops counter of lines 80–85 of engine.py: adjacent pairs whose
previous value is `> 0` and whose current value is `== 0`. -/
def countDrops (metric : String) : List Point → Nat
  | p :: q :: rest =>
    (if orZero (getMetric p metric) > 0 ∧ orZero (getMetric q metric) = 0 then 1 else 0)
      + countDrops metric (q :: rest)
  | _ => 0

/-- `simulate(points, metric, rule, sampling_sec)` (lines 56–89 of
engine.py).  Starts in state `"OFF"` with all counters 0; after the walk,
when the `drops_to_zero` pattern is enabled and the counted drops reach
`min_drops` (default 2), one `DROPS_TO_ZERO` event is appended with the last
sample's timestamp — `points[-1]` raises `IndexError` on an empty list,
modelled as `none`. -/
def simulate (points : List Point) (metric : String) (rule : Rule)
    (sampling_sec : Int) : Option (List StateSample × List Event) :=
  match runPoints sampling_sec metric rule.states points (fun _ => 0) "OFF" [] [] with
  | none => none
  | some (_, _, sts, evs) =>
    if rule.patterns.drops_to_zero.enabled then
      let drops := countDrops metric points
      if rule.patterns.drops_to_zero.min_drops?.getD 2 ≤ (drops : Int) then
        match points.getLast? with
        | some pl => some (sts, evs ++ [⟨pl.ts, "DROPS_TO_ZERO", Payload.drops drops⟩])
        | none => none
      else some (sts, evs)
    else some (sts, evs)

/-- Python's `round(x, 2)` (round half to even on the scaled value; exact
when the scaled value is not a tie).  Binary-float representation noise is
not modelled: values in this development are exact rationals. -/
def roundHalfEven (x : ℚ) : Int :=
  let f := ⌊x⌋
  let r := x - (f : ℚ)
  if r < 1/2 then f
  else if 1/2 < r then f + 1
  else if f % 2 = 0 then f else f + 1

/-- `round(x, 2)` from the proposer's threshold derivation. -/
def round2 (x : ℚ) : ℚ := (roundHalfEven (x * 100) : ℚ) / 100

/-- `np.array([p[metric] for p in points if p.get(metric) is not None])`
(line 93 of engine.py). -/
def proposeVals (points : List Point) (metric : String) : List ℚ :=
  points.filterMap (fun p => getMetric p metric)

/-- The confidence score of `propose_rule` (lines 95 and 121 of engine.py):
`0.0` for an empty value list, otherwise
`min(0.99, max(0.55, len(vals) / 5000))`. -/
def proposeScore (points : List Point) (metric : String) : ℚ :=
  let vals := proposeVals points metric
  if vals.length = 0 then 0
  else qmin (99/100) (qmax (55/100) ((vals.length : ℚ) / 5000))

/-- The rule the proposer builds for the `watts` branch (lines 99–114 of
engine.py); the `oscillation` pattern sub-dict it also writes is not read by
any code under verification and is not represented in `Patterns`. -/
def proposeRuleWatts (points : List Point) : Rule :=
  let vals := proposeVals points "watts"
  let p50 := npQuantile (1/2) vals
  let p90 := npQuantile (9/10) vals
  let start := qmax 5 (p90 * (6/10))
  let idle_low : ℚ := 1
  let idle_high := qmax 5 (p50 * (5/10))
  { states := [
      ⟨some "RUNNING", some { op := some "gte", value := some (round2 start), for_sec := some 60 }⟩,
      ⟨some "IDLE_ON", some { op := some "between", min := some idle_low,
                              max := some (round2 idle_high), for_sec := some 180 }⟩,
      ⟨some "OFF", some { op := some "lte", value := some (1/2), for_sec := some 60 }⟩],
    patterns := { drops_to_zero := { enabled := true, min_drops? := some 2 } } }

/-- Output of the oscillation detector: the `detected` flag and the counted
cycles. -/
structure OscOut where
  detected : Bool
  cycles : Nat
deriving DecidableEq, Repr

/-- Sign of a rational, as `np.sign`. -/
def signQ (x : ℚ) : Int := if x < 0 then -1 else if x = 0 then 0 else 1

/-- Number of adjacent sign changes of a series. -/
def countSignChanges : List ℚ → Nat
  | a :: b :: rest => (if signQ a ≠ signQ b then 1 else 0) + countSignChanges (b :: rest)
  | _ => 0

/-- Modelled from the spec: `detect_oscillation` is imported from
`app.services.engine` by `tests/test_engine.py` but the function itself is
missing from the source tree under verification.  Spec §4.4: requires at
least 8 values; center values around their mean, count sign changes of the
centered series, `cycles = sign-changes / 2` (integer division);
`amplitude = (p90 − p10) / max(mean, 1e-6)`; detected iff
`cycles ≥ min_cycles` and `amplitude ≥ tolerance`. -/
def detect_oscillation (vals : List ℚ) (tolerance : ℚ) (min_cycles : Nat) : OscOut :=
  if vals.length < 8 then ⟨false, 0⟩
  else
    let mean := vals.sum / (vals.length : ℚ)
    let centered := vals.map (fun v => v - mean)
    let cycles := countSignChanges centered / 2
    let p90 := npQuantile (9/10) vals
    let p10 := npQuantile (1/10) vals
    let amplitude := (p90 - p10) / qmax mean (1/1000000)
    ⟨decide (min_cycles ≤ cycles) && decide (tolerance ≤ amplitude), cycles⟩

/-- Follows the spec's words (§4.5, claim C5): the proposer's confidence
starts at a base of 0.55, adds a fixed bonus of 0.2 when the derived entry
threshold exceeds the idle threshold, adds a fixed bonus of 0.1 when
oscillation is detected on the series, capped at 0.99. -/
def spec_confidence (points : List Point) (metric : String) (tolerance : ℚ)
    (min_cycles : Nat) : ℚ :=
  let vals := proposeVals points metric
  let entry := round2 (qmax 5 (npQuantile (9/10) vals * (6/10)))
  let idle := round2 (qmax 5 (npQuantile (1/2) vals * (5/10)))
  let osc := (detect_oscillation vals tolerance min_cycles).detected
  qmin (99/100)
    ((55/100) + (if idle < entry then 2/10 else 0) + (if osc then 1/10 else 0))

/-- The debounce counter of one state after the current sample's update:
incremented by `sampling_sec` when its condition holds, reset to 0
otherwise. -/
def updatedCount (sampling_sec : Int) (v : Option ℚ) (c : Counters)
    (st : StateDef) : Int :=
  if (condition_true v (st.when?.getD {})).getD false then c (stateKey st) + sampling_sec
  else 0

/-- Whether a state's updated counter has reached its
`cond.get("for_sec", sampling_sec)` threshold at the current sample. -/
def reached (sampling_sec : Int) (v : Option ℚ) (c : Counters) (st : StateDef) : Bool :=
  decide ((st.when?.getD {}).for_sec.getD sampling_sec ≤ updatedCount sampling_sec v c st)

/-- Follows the spec's words (claim C1): the sample's winner is the first
state in the rule's declared order whose debounce counter has reached its
`min_duration_sec`, and the previous state when none has. -/
def spec_selected_state (sampling_sec : Int) (v : Option ℚ) (c : Counters)
    (states : List StateDef) (current : String) : String :=
  match states.find? (reached sampling_sec v c) with
  | some st => st.name?.getD "UNKNOWN"
  | none => current

/-- The `from` field of an event payload (empty for a drops payload). -/
def evFrom (e : Event) : String :=
  match e.payload with
  | .change a _ => a
  | .drops _ => ""

/-- The `to` field of an event payload (empty for a drops payload). -/
def evTo (e : Event) : String :=
  match e.payload with
  | .change _ b => b
  | .drops _ => ""

/-- A contiguous chain of transitions out of `s`: each event leaves the
state the previous one entered, and none of them has `from = to`. -/
def chainFrom : String → List Event → Bool
  | _, [] => true
  | s, e :: rest =>
    decide (evFrom e = s) && decide (evFrom e ≠ evTo e) && chainFrom (evTo e) rest

/-- The state at the end of a chain of transitions starting from `s`. -/
def endTo (s : String) : List Event → String
  | [] => s
  | e :: rest => endTo (evTo e) rest

/-- Definitional unfolding of `condition_true` on a present value. -/
theorem condition_true_some (v : ℚ) (cond : Cond) :
    condition_true (some v) cond =
      (if cond.op = some "gte" then Option.map (fun t => decide (v ≥ t)) cond.value
       else if cond.op = some "lte" then Option.map (fun t => decide (v ≤ t)) cond.value
       else if cond.op = some "between" then
         match cond.min, cond.max with
         | some a, some b => some (decide (a ≤ v ∧ v ≤ b))
         | _, _ => none
       else some false) := rfl

/-- C8: the oscillation detector, given at least 8 values, centers them on
their mean, counts sign changes, halves them into cycles and compares the
`(p90 − p10) / max(mean, 1e-6)` amplitude with the tolerance; on the
strictly alternating series `[0,10,0,10,0,10,0,10,0]` with `tolerance=0.2`
and `min_cycles=3` it reports `detected = true` with `cycles = 4 ≥ 3`. -/
theorem npq90_osc : npQuantile (9/10) [0, 10, 0, 10, 0, 10, 0, 10, 0] = 10 := by
  have hs : sortVals [0, 10, 0, 10, 0, 10, 0, 10, 0] = [0, 0, 0, 0, 0, 10, 10, 10, 10] := by
    decide
  rw [npQuantile, hs]
  simp only [interpQ, List.length_cons, List.length_nil]
  norm_num
  rw [show ((⌈(36:ℚ)/5⌉ : ℤ) = 8) from by rw [Int.ceil_eq_iff]; norm_num]
  simp [Int.toNat_ofNat]

theorem npq10_osc : npQuantile (1/10) [0, 10, 0, 10, 0, 10, 0, 10, 0] = 0 := by
  have hs : sortVals [0, 10, 0, 10, 0, 10, 0, 10, 0] = [0, 0, 0, 0, 0, 10, 10, 10, 10] := by
    decide
  rw [npQuantile, hs]
  simp only [interpQ, List.length_cons, List.length_nil]
  norm_num
  rw [show ((⌈(4:ℚ)/5⌉ : ℤ) = 1) from by rw [Int.ceil_eq_iff]; norm_num]
  simp [Int.toNat_ofNat]

/-- Every quantile of a one-element sample is that element (`h = q·0 = 0`). -/
theorem npq_single (q : ℚ) (v : ℚ) : npQuantile q [v] = v := by
  rw [npQuantile, show sortVals [v] = [v] from rfl]
  simp [interpQ]

theorem C8_oscillation_alternating :
    detect_oscillation [0, 10, 0, 10, 0, 10, 0, 10, 0] (1/5) 3 = ⟨true, 4⟩
    ∧ 3 ≤ (detect_oscillation [0, 10, 0, 10, 0, 10, 0, 10, 0] (1/5) 3).cycles := by
  have hmain : detect_oscillation [0, 10, 0, 10, 0, 10, 0, 10, 0] (1/5) 3 = ⟨true, 4⟩ := by
    have hsc : countSignChanges (List.map (fun v => v - 40/9)
        ([0, 10, 0, 10, 0, 10, 0, 10, 0] : List ℚ)) = 8 := by
      norm_num [countSignChanges, signQ]
    have hqm : qmax (40/9) (1/1000000) = 40/9 := by norm_num [qmax]
    simp only [detect_oscillation, List.length_cons, List.length_nil]
    rw [if_neg (by norm_num),
      show ([0, 10, 0, 10, 0, 10, 0, 10, 0] : List ℚ).sum = 40 from by norm_num]
    norm_num only [Nat.cast_ofNat]
    rw [hsc, npq90_osc, npq10_osc, hqm]
    norm_num [OscOut.mk.injEq]
  exact ⟨hmain, by rw [hmain]; norm_num⟩

/-- C3 counterexample: `simulate` on an empty series does raise for a rule
that enables `drops_to_zero` with `min_drops = 0` — the drop count 0 meets
the threshold and `points[-1]` fails on the empty list (`IndexError`,
modelled as `none`). -/
theorem C3_counterexample :
    simulate [] "watts"
      { patterns := { drops_to_zero := { enabled := true, min_drops? := some 0 } } } 30
      = none := by
  decide

/-- C3 (amended): on an empty series `simulate` returns empty states and
empty events — and raises no error — for every rule that does not enable
`drops_to_zero` with a non-positive `min_drops`; no `active_ratio` is
computed (`simulate` returns only the states and the events). -/
theorem C3_amended (metric : String) (rule : Rule) (sampling_sec : Int)
    (h : rule.patterns.drops_to_zero.enabled = true →
         1 ≤ rule.patterns.drops_to_zero.min_drops?.getD 2) :
    simulate [] metric rule sampling_sec = some ([], []) := by
  simp only [simulate, runPoints]
  by_cases he : rule.patterns.drops_to_zero.enabled = true
  · have hmd := h he
    have hnd : ¬ (rule.patterns.drops_to_zero.min_drops?.getD 2
        ≤ ((countDrops metric []) : Int)) := by
      simp only [countDrops, Nat.cast_zero]
      omega
    rw [if_pos he, if_neg hnd]
  · rw [if_neg he]

/-- C3 witness: the amended theorem applied to the empty series and a rule
with `drops_to_zero` disabled. -/
theorem C3_amended_witness :
    simulate [] "watts" { patterns := { drops_to_zero := { enabled := false } } } 30
      = some ([], []) :=
  C3_amended "watts" { patterns := { drops_to_zero := { enabled := false } } } 30 (by decide)

/-- C4 counterexample: nothing rejects a malformed rule before simulation —
`condition_true` evaluates an unknown operator to `False`, accepts BETWEEN
with `min > max` (it is simply never satisfied), and `simulate` runs a rule
with a malformed operator to completion without any error. -/
theorem C4_counterexample :
    condition_true (some 5) { op := some "frobnicate" } = some false
    ∧ condition_true (some 5) { op := some "between", min := some 10, max := some 0 }
        = some false
    ∧ simulate [⟨0, some 5, none, none⟩] "watts"
        { states := [⟨some "X", some { op := some "frobnicate" }⟩] } 30
      = some ([⟨0, "OFF"⟩], []) := by
  refine ⟨by decide, by decide, by decide⟩

/-- C4 (amended): the code never validates a rule: a condition whose
operator is missing or unknown evaluates to `False` (it is not rejected, at
construction or anywhere else), BETWEEN with `min > max` is accepted and is
false for every value, and a known operator whose threshold key is missing
fails during simulation (`KeyError`), not at construction. -/
theorem C4_amended (v : ℚ) (cond : Cond) :
    ((∀ s, cond.op = some s → s ≠ "gte" ∧ s ≠ "lte" ∧ s ≠ "between") →
      condition_true (some v) cond = some false)
    ∧ (∀ a b, cond.op = some "between" → cond.min = some a → cond.max = some b →
        b < a → condition_true (some v) cond = some false)
    ∧ (cond.op = some "gte" → cond.value = none → condition_true (some v) cond = none) := by
  refine ⟨fun hop => ?_, fun a b hbet hmin hmax hba => ?_, fun hop hval => ?_⟩
  · have h1 : cond.op ≠ some "gte" := fun h => ((hop _ h).1 rfl)
    have h2 : cond.op ≠ some "lte" := fun h => ((hop _ h).2.1 rfl)
    have h3 : cond.op ≠ some "between" := fun h => ((hop _ h).2.2 rfl)
    rw [condition_true_some, if_neg h1, if_neg h2, if_neg h3]
  · have h1 : cond.op ≠ some "gte" := by simp [hbet]
    have h2 : cond.op ≠ some "lte" := by simp [hbet]
    have hfalse : ¬ (a ≤ v ∧ v ≤ b) := by
      rintro ⟨ha, hb⟩
      exact absurd (le_trans ha hb) (not_le.mpr hba)
    rw [condition_true_some, if_neg h1, if_neg h2, if_pos hbet, hmin, hmax]
    simp [hfalse]
  · rw [condition_true_some, if_pos hop, hval]
    rfl

/-- C4 witness: the amended theorem applied to an unknown operator, to an
inverted BETWEEN range and to a GTE condition with a missing value. -/
theorem C4_amended_witness :
    condition_true (some 5) { op := some "frobnicate2" } = some false
    ∧ condition_true (some 5) { op := some "between", min := some 3, max := some 1 }
        = some false
    ∧ condition_true (some 5) { op := some "gte" } = none :=
  ⟨(C4_amended 5 { op := some "frobnicate2" }).1 (by decide),
   (C4_amended 5 { op := some "between", min := some 3, max := some 1 }).2.1 3 1
     rfl rfl rfl (by norm_num),
   (C4_amended 5 { op := some "gte" }).2.2 rfl rfl⟩

/-- C5 counterexample: on a one-sample series with `watts = 10` the code's
confidence is `min(0.99, max(0.55, 1/5000)) = 0.55`, while the spec's
base-plus-bonus formula gives `0.55 + 0.2 = 0.75` (the derived entry
threshold 6.0 exceeds the idle threshold 5.0 and no oscillation is
detectable on one value). -/
theorem C5_counterexample :
    proposeScore [⟨0, some 10, none, none⟩] "watts" = 11/20
    ∧ spec_confidence [⟨0, some 10, none, none⟩] "watts" (1/5) 3 = 3/4
    ∧ ((11 : ℚ)/20) ≠ 3/4 := by
  have hv : proposeVals [⟨0, some 10, none, none⟩] "watts" = [10] := by decide
  refine ⟨?_, ?_, by norm_num⟩
  · simp only [proposeScore, hv]
    norm_num [qmin, qmax]
  · have hosc : (detect_oscillation [(10:ℚ)] (1/5) 3).detected = false := by decide
    have he : qmax 5 ((10:ℚ) * (6/10)) = 6 := by norm_num [qmax]
    have hi : qmax 5 ((10:ℚ) * (5/10)) = 5 := by norm_num [qmax]
    have hr6 : round2 6 = 6 := by norm_num [round2, roundHalfEven]
    have hr5 : round2 5 = 5 := by norm_num [round2, roundHalfEven]
    simp only [spec_confidence, hv, npq_single, hosc, he, hi, hr6, hr5]
    norm_num [qmin]

/-- C5 (amended): for every series with at least one present metric value,
the proposer's confidence is `min(0.99, max(0.55, n/5000))` where `n` counts
the present values — it depends only on the data volume, with no threshold
or oscillation bonuses — and always lies in `[0.55, 0.99]`. -/
theorem C5_amended (points : List Point) (metric : String)
    (h : proposeVals points metric ≠ []) :
    proposeScore points metric
      = min (99/100) (max (55/100) (((proposeVals points metric).length : ℚ) / 5000))
    ∧ 55/100 ≤ proposeScore points metric
    ∧ proposeScore points metric ≤ 99/100 := by
  have hlen : ¬ ((proposeVals points metric).length = 0) := by
    simpa [List.length_eq_zero] using h
  have hval : proposeScore points metric
      = min (99/100) (max (55/100) (((proposeVals points metric).length : ℚ) / 5000)) := by
    unfold proposeScore
    rw [if_neg hlen, qmin_eq, qmax_eq]
  refine ⟨hval, ?_, ?_⟩
  · rw [hval]
    exact le_min (by norm_num) (le_max_left _ _)
  · rw [hval]
    exact min_le_left _ _

/-- C5 witness: the amended theorem applied to the one-sample series. -/
theorem C5_amended_witness :
    proposeScore [⟨0, some 10, none, none⟩] "watts"
      = min (99/100) (max (55/100)
          (((proposeVals [⟨0, some 10, none, none⟩] "watts").length : ℚ) / 5000))
    ∧ 55/100 ≤ proposeScore [⟨0, some 10, none, none⟩] "watts"
    ∧ proposeScore [⟨0, some 10, none, none⟩] "watts" ≤ 99/100 :=
  C5_amended [⟨0, some 10, none, none⟩] "watts" (by decide)

/-- C1 (amended): within one sample's scan over the declared states, the
state `simulate` selects is the LAST state in declared order whose debounce
counter has reached its `for_sec` threshold at that sample (the scan
overwrites `new_state` with each qualifying state's name, so ties go to the
latest-declared state, not the first), and it holds the previous state when
no counter has reached its threshold.  Stated for rules whose states have
pairwise distinct counter keys, since duplicated keys share one counter. -/
theorem C1_amended (sampling_sec : Int) (v : Option ℚ) :
    ∀ (states : List StateDef) (c : Counters) (current sel : String),
      (states.map stateKey).Nodup →
      (runStates sampling_sec v states c current).map Prod.snd = some sel →
      sel = ((states.filter (reached sampling_sec v c)).getLast?.map
        (fun st => st.name?.getD "UNKNOWN")).getD current := by
  intro states
  induction states with
  | nil =>
    intro c current sel _ hrun
    simp only [runStates, Option.map_some'] at hrun
    simp only [List.filter_nil, List.getLast?_nil, Option.map_none', Option.getD_none]
    exact (Option.some_injective _ hrun).symm
  | cons st rest ih =>
    intro c current sel hnd hrun
    simp only [runStates] at hrun
    cases hct : condition_true v (st.when?.getD {}) with
    | none =>
      rw [hct] at hrun
      simp at hrun
    | some b =>
      rw [hct] at hrun
      simp only [] at hrun
      have hhead : stateKey st ∉ rest.map stateKey ∧ (rest.map stateKey).Nodup := by
        rw [List.map_cons, List.nodup_cons] at hnd
        exact hnd
      have hcc : ∀ st' ∈ rest,
          updateCounter c (st.name?.getD "UNKNOWN", st.when?.getD {})
            (if b then c (st.name?.getD "UNKNOWN", st.when?.getD {}) + sampling_sec else 0)
            (stateKey st') = c (stateKey st') := by
        intro st' hst'
        unfold updateCounter
        rw [if_neg]
        intro he
        apply hhead.1
        have he' : stateKey st' = stateKey st := he
        rw [← he']
        exact List.mem_map_of_mem stateKey hst'
      have hfilter : ∀ cx : Counters, (∀ st' ∈ rest, cx (stateKey st') = c (stateKey st')) →
          rest.filter (reached sampling_sec v cx) = rest.filter (reached sampling_sec v c) := by
        intro cx hcx
        apply List.filter_congr
        intro st' hst'
        unfold reached updatedCount
        rw [hcx st' hst']
      have hreach : reached sampling_sec v c st
          = decide ((st.when?.getD {}).for_sec.getD sampling_sec
              ≤ (if b then c (stateKey st) + sampling_sec else 0)) := by
        unfold reached updatedCount
        simp only [hct, Option.getD_some]
      by_cases hth : (st.when?.getD {}).for_sec.getD sampling_sec
          ≤ (if b then c (st.name?.getD "UNKNOWN", st.when?.getD {}) + sampling_sec else 0)
      · rw [if_pos hth] at hrun
        have ihres := ih _ _ _ hhead.2 hrun
        rw [hfilter _ hcc] at ihres
        have hrt : reached sampling_sec v c st = true := by
          rw [hreach]
          exact decide_eq_true hth
        rw [List.filter_cons_of_pos hrt]
        cases hr : rest.filter (reached sampling_sec v c) with
        | nil =>
          rw [hr] at ihres
          simpa using ihres
        | cons y ys =>
          rw [hr] at ihres
          rw [List.getLast?_cons_cons]
          obtain ⟨z, hz⟩ := Option.isSome_iff_exists.mp
            (List.getLast?_isSome.mpr (List.cons_ne_nil y ys))
          rw [hz] at ihres ⊢
          simp only [Option.map_some', Option.getD_some] at ihres ⊢
          exact ihres
      · rw [if_neg hth] at hrun
        have ihres := ih _ _ _ hhead.2 hrun
        rw [hfilter _ hcc] at ihres
        have hrf : reached sampling_sec v c st = false := by
          rw [hreach]
          simpa using hth
        rw [List.filter_cons_of_neg (by simp [hrf])]
        exact ihres

/-- A GTE-0 condition with a 30-second debounce, used to exhibit the tie
between two states whose counters reach their thresholds at the same
sample. -/
def condGte0 : Cond := { op := some "gte", value := some 0, for_sec := some 30 }

/-- Two states, declared in the order A then B, with identical satisfied
conditions. -/
def stsAB : List StateDef := [⟨some "A", some condGte0⟩, ⟨some "B", some condGte0⟩]

/-- The rule holding `stsAB` (no patterns). -/
def ruleAB : Rule := { states := stsAB }

/-- C1 counterexample: on one sample with `watts = 5`, both declared states
A and B reach their thresholds simultaneously; `simulate` records state "B"
(the last declared), while the spec's first-declared selection picks "A". -/
theorem C1_counterexample :
    simulate [⟨0, some 5, none, none⟩] "watts" ruleAB 30
      = some ([⟨0, "B"⟩], [⟨0, "STATE_CHANGE", Payload.change "OFF" "B"⟩])
    ∧ spec_selected_state 30 (some 5) (fun _ => 0) stsAB "OFF" = "A"
    ∧ ("B" : String) ≠ "A" := by
  refine ⟨by decide, by decide, by decide⟩

/-- C1 witness: the amended selection theorem applied to the concrete
two-state tie. -/
theorem C1_amended_witness :
    ((stsAB.map stateKey).Nodup
      ∧ (runStates 30 (some 5) stsAB (fun _ => 0) "OFF").map Prod.snd = some "B")
    ∧ "B" = ((stsAB.filter (reached 30 (some 5) (fun _ => 0))).getLast?.map
        (fun st => st.name?.getD "UNKNOWN")).getD "OFF" :=
  ⟨⟨by decide, by decide⟩,
   C1_amended 30 (some 5) stsAB (fun _ => 0) "OFF" "B" (by decide) (by decide)⟩

/-- A sorted list of integers without duplicates is strictly sorted. -/
theorem pairwise_lt_of_sorted_nodup (l : List Int)
    (hs : l.Sorted (· ≤ ·)) (hn : l.Nodup) : l.Pairwise (· < ·) :=
  (hs.and hn).imp (fun h => lt_of_le_of_ne h.1 h.2)

/-- C2 (amended): whenever at least one input point carries a present value
of the chosen metric, the output of `preprocess` is sorted by strictly
increasing timestamp with no duplicate buckets.  (When the metric has no
present value at all, `preprocess` returns the sorted input unbucketed and
duplicate timestamps survive — see the counterexample.) -/
theorem C2_amended (points : List Point) (metric : String) (sampling_sec : Int)
    (hpos : 0 < sampling_sec)
    (hpres : ∃ p ∈ points, (getMetric p metric).isSome) :
    List.Pairwise (· < ·) ((preprocess points metric sampling_sec).map Point.ts) := by
  obtain ⟨p0, hp0, hp0s⟩ := hpres
  have hne : points ≠ [] := by
    rintro rfl
    exact absurd hp0 (List.not_mem_nil p0)
  obtain ⟨v0, hv0⟩ := Option.isSome_iff_exists.mp hp0s
  have hvals : (sortByTs points).filterMap (fun p => getMetric p metric) ≠ [] := by
    have hmem : v0 ∈ (sortByTs points).filterMap (fun p => getMetric p metric) :=
      List.mem_filterMap.mpr
        ⟨p0, (List.perm_insertionSort tsLe points).symm.subset hp0, hv0⟩
    exact List.ne_nil_of_mem hmem
  simp only [preprocess]
  rw [if_neg hne, if_neg hvals]
  rw [List.map_map]
  have hts : ∀ b : Int, (Point.ts ∘ fun b =>
      aggBucket ((List.map (clipPoint metric (clipBounds points metric).1
        (clipBounds points metric).2) (sortByTs points)).filter
          (fun p => bucketTs sampling_sec p.ts = b)) b) b = b := fun _ => rfl
  rw [List.map_congr_left (fun b _ => hts b)]
  rw [List.map_id']
  apply pairwise_lt_of_sorted_nodup
  · exact List.sorted_insertionSort _ _
  · exact (List.perm_insertionSort _ _).nodup_iff.mpr (List.nodup_dedup _)

/-- C2 counterexample: two points sharing one timestamp with no present
`watts` value take the early return at line 16 of engine.py — the output is
the sorted input itself and its timestamps are not strictly increasing. -/
theorem C2_counterexample :
    preprocess [⟨0, none, none, none⟩, ⟨0, none, none, none⟩] "watts" 30
      = [⟨0, none, none, none⟩, ⟨0, none, none, none⟩]
    ∧ ¬ List.Pairwise (· < ·)
        ((preprocess [⟨0, none, none, none⟩, ⟨0, none, none, none⟩] "watts" 30).map
          Point.ts) := by
  refine ⟨by decide, by decide⟩

/-- C2 witness: the amended theorem applied to a two-point series with
present values. -/
theorem C2_amended_witness :
    (0 < (30:Int) ∧ ∃ p ∈ [(⟨0, some 1, none, none⟩ : Point), ⟨30, some 2, none, none⟩],
      (getMetric p "watts").isSome)
    ∧ List.Pairwise (· < ·)
        ((preprocess [⟨0, some 1, none, none⟩, ⟨30, some 2, none, none⟩] "watts" 30).map
          Point.ts) :=
  ⟨⟨by decide, by decide⟩,
   C2_amended [⟨0, some 1, none, none⟩, ⟨30, some 2, none, none⟩] "watts" 30
     (by decide) (by decide)⟩

/-- Writing back the value a sample already holds leaves the sample
unchanged. -/
theorem setMetric_of_getMetric (p : Point) (m : String) (v : ℚ)
    (h : getMetric p m = some v) : setMetric p m v = p := by
  unfold getMetric at h
  unfold setMetric
  split_ifs at h ⊢ <;> (cases p; simp_all)

/-- Clipping a value that already lies inside the bounds is the identity. -/
theorem clamp_of_mem (low high v : ℚ) (h1 : low ≤ v) (h2 : v ≤ high) :
    clamp low high v = v := by
  unfold clamp
  rw [qmax_eq, qmin_eq, min_eq_right h2, max_eq_right h1]

/-- The five-sample series whose last value 100 lies outside the IQR clip
bounds computed from `[0,0,0,0,100]` (both quartiles are 0, so the bounds
collapse to `[0,0]`). -/
def ptsC6 : List Point :=
  [⟨0, some 0, none, none⟩, ⟨30, some 0, none, none⟩, ⟨60, some 0, none, none⟩,
   ⟨90, some 0, none, none⟩, ⟨120, some 100, none, none⟩]

/-- The clip bounds of `ptsC6` collapse to `[0, 0]`. -/
theorem hcbC6 : clipBounds ptsC6 "watts" = (0, 0) := by
  have hvals : (sortByTs ptsC6).filterMap (fun p => getMetric p "watts") = [0,0,0,0,100] := by
    decide
  have hq1 : npQuantile (1/4) [0,0,0,0,100] = 0 := by
    rw [npQuantile, show sortVals [0,0,0,0,100] = [0,0,0,0,100] from by decide]
    simp only [interpQ, List.length_cons, List.length_nil]
    norm_num [Int.ceil_one, Int.floor_one]
  have hq3 : npQuantile (3/4) [0,0,0,0,100] = 0 := by
    rw [npQuantile, show sortVals [0,0,0,0,100] = [0,0,0,0,100] from by decide]
    simp only [interpQ, List.length_cons, List.length_nil]
    norm_num [show ((3:ℚ)/4 * 4) = 3 from by norm_num]
    simp [Int.toNat_ofNat]
  simp only [clipBounds, hvals, hq1, hq3]
  norm_num

/-- C6 counterexample: `preprocess` mutates the caller's samples — after the
call on `ptsC6` the last sample's `watts` value has been clipped from 100 to
0, so the caller's input no longer holds the values it held before. -/
theorem C6_counterexample :
    preprocessInputAfter ptsC6 "watts"
      = [⟨0, some 0, none, none⟩, ⟨30, some 0, none, none⟩, ⟨60, some 0, none, none⟩,
         ⟨90, some 0, none, none⟩, ⟨120, some 0, none, none⟩]
    ∧ preprocessInputAfter ptsC6 "watts" ≠ ptsC6 := by
  have heval : preprocessInputAfter ptsC6 "watts"
      = [⟨0, some 0, none, none⟩, ⟨30, some 0, none, none⟩, ⟨60, some 0, none, none⟩,
         ⟨90, some 0, none, none⟩, ⟨120, some 0, none, none⟩] := by
    simp only [preprocessInputAfter]
    rw [if_neg (by decide), if_neg (by decide)]
    rw [hcbC6]
    norm_num [ptsC6, clipPoint, getMetric, setMetric, clamp, qmax, qmin]
  refine ⟨heval, ?_⟩
  rw [heval]
  decide

/-- C6 (amended): `preprocess` clips the caller's samples in place — the
observable mutation is exactly the IQR clamping of the chosen metric — so
the caller's input is left unchanged precisely when every present value of
that metric already lies within the clip bounds (in particular whenever
nothing needs clipping); `simulate` and the proposer only read their
input. -/
theorem C6_amended (points : List Point) (metric : String)
    (h : ∀ p ∈ points, ∀ v, getMetric p metric = some v →
        (clipBounds points metric).1 ≤ v ∧ v ≤ (clipBounds points metric).2) :
    preprocessInputAfter points metric = points := by
  simp only [preprocessInputAfter]
  split_ifs with h1 h2
  · rfl
  · rfl
  · have hid : ∀ p ∈ points, clipPoint metric (clipBounds points metric).1
        (clipBounds points metric).2 p = (fun q => q) p := by
      intro p hp
      cases hg : getMetric p metric with
      | none => simp only [clipPoint, hg]
      | some v =>
        obtain ⟨hl, hr⟩ := h p hp v hg
        simp only [clipPoint, hg]
        rw [clamp_of_mem _ _ _ hl hr]
        exact setMetric_of_getMetric p metric v hg
    rw [List.map_congr_left hid, List.map_id']

/-- The clip bounds of a one-sample series collapse onto its value. -/
theorem hcbW : clipBounds [⟨0, some 7, none, none⟩] "watts" = (7, 7) := by
  simp only [clipBounds,
    show (sortByTs [⟨0, some 7, none, none⟩]).filterMap (fun p => getMetric p "watts") = [7]
      from by decide, npq_single]
  norm_num

/-- C6 witness: the amended theorem applied to a series whose values all lie
inside the clip bounds. -/
theorem C6_amended_witness :
    preprocessInputAfter [⟨0, some 7, none, none⟩] "watts" = [⟨0, some 7, none, none⟩] :=
  C6_amended [⟨0, some 7, none, none⟩] "watts" (by
    intro p hp v hv
    rw [hcbW]
    simp only [List.mem_singleton] at hp
    subst hp
    simp only [getMetric, if_pos rfl] at hv
    cases hv
    norm_num)

/-- The outer sample loop only appends `STATE_CHANGE` events, and they chain:
each event leaves the state the previous one entered, starting from the
current state, and the last event's target is the final current state. -/
theorem runPoints_spec (sampling_sec : Int) (metric : String) (states : List StateDef) :
    ∀ (pts : List Point) (c : Counters) (cur : String) (sts0 : List StateSample)
      (evs0 : List Event) (c' : Counters) (cur' : String) (sts' : List StateSample)
      (evs' : List Event),
      runPoints sampling_sec metric states pts c cur sts0 evs0 = some (c', cur', sts', evs') →
      ∃ new : List Event, evs' = evs0 ++ new ∧ chainFrom cur new = true
        ∧ endTo cur new = cur' ∧ ∀ e ∈ new, e.type = "STATE_CHANGE" := by
  intro pts
  induction pts with
  | nil =>
    intro c cur sts0 evs0 c' cur' sts' evs' hrun
    simp only [runPoints, Option.some.injEq, Prod.mk.injEq] at hrun
    obtain ⟨-, hcur, -, hevs⟩ := hrun
    exact ⟨[], by simp [← hevs], rfl, hcur ▸ rfl, by simp⟩
  | cons p rest ih =>
    intro c cur sts0 evs0 c' cur' sts' evs' hrun
    simp only [runPoints] at hrun
    cases hrs : runStates sampling_sec (getMetric p metric) states c cur with
    | none =>
      rw [hrs] at hrun
      simp at hrun
    | some pr =>
      obtain ⟨c1, new1⟩ := pr
      rw [hrs] at hrun
      simp only [] at hrun
      by_cases hne : new1 ≠ cur
      · rw [if_pos hne] at hrun
        obtain ⟨new, hnew, hchain, hend, hsc⟩ := ih _ _ _ _ _ _ _ _ hrun
        refine ⟨⟨p.ts, "STATE_CHANGE", Payload.change cur new1⟩ :: new, ?_, ?_, ?_, ?_⟩
        · rw [hnew, List.append_assoc]
          rfl
        · simp only [chainFrom, evFrom, evTo]
          rw [hchain]
          simp [Ne.symm hne]
        · simpa [endTo, evTo] using hend
        · intro e he
          rcases List.mem_cons.mp he with rfl | hmem
          · rfl
          · exact hsc e hmem
      · rw [if_neg hne] at hrun
        push_neg at hne
        subst hne
        obtain ⟨new, hnew, hchain, hend, hsc⟩ := ih _ _ _ _ _ _ _ _ hrun
        exact ⟨new, hnew, hchain, hend, hsc⟩

/-- Decomposition of a successful `simulate` run: its events are the loop's
chained `STATE_CHANGE` events, followed by one `DROPS_TO_ZERO` event with
the last sample's timestamp exactly when the pattern is enabled and the drop
count reaches `min_drops`. -/
theorem simulate_split (points : List Point) (metric : String) (rule : Rule)
    (sampling_sec : Int) (sts : List StateSample) (evs : List Event)
    (hsim : simulate points metric rule sampling_sec = some (sts, evs)) :
    ∃ evs0 : List Event, chainFrom "OFF" evs0 = true
      ∧ (∀ e ∈ evs0, e.type = "STATE_CHANGE")
      ∧ ((rule.patterns.drops_to_zero.enabled = true
            ∧ rule.patterns.drops_to_zero.min_drops?.getD 2 ≤ (countDrops metric points : Int)
            ∧ ∃ pl, points.getLast? = some pl
              ∧ evs = evs0
                  ++ [⟨pl.ts, "DROPS_TO_ZERO", Payload.drops (countDrops metric points)⟩])
        ∨ (evs = evs0
            ∧ (rule.patterns.drops_to_zero.enabled = true →
              (countDrops metric points : Int) < rule.patterns.drops_to_zero.min_drops?.getD 2))) := by
  unfold simulate at hsim
  cases hrp : runPoints sampling_sec metric rule.states points (fun _ => 0) "OFF" [] [] with
  | none =>
    rw [hrp] at hsim
    simp at hsim
  | some r =>
    obtain ⟨c', cur', sts', evs'⟩ := r
    rw [hrp] at hsim
    simp only [] at hsim
    obtain ⟨new, hnew, hchain, hend, hsc⟩ :=
      runPoints_spec sampling_sec metric rule.states points _ _ _ _ _ _ _ _ hrp
    rw [List.nil_append] at hnew
    subst hnew
    refine ⟨evs', hchain, hsc, ?_⟩
    by_cases hen : rule.patterns.drops_to_zero.enabled = true
    · rw [if_pos hen] at hsim
      by_cases hmd : rule.patterns.drops_to_zero.min_drops?.getD 2
          ≤ (countDrops metric points : Int)
      · rw [if_pos hmd] at hsim
        cases hgl : points.getLast? with
        | none =>
          rw [hgl] at hsim
          simp at hsim
        | some pl =>
          rw [hgl] at hsim
          simp only [Option.some.injEq, Prod.mk.injEq] at hsim
          exact Or.inl ⟨hen, hmd, pl, rfl, hsim.2.symm⟩
      · rw [if_neg hmd] at hsim
        simp only [Option.some.injEq, Prod.mk.injEq] at hsim
        exact Or.inr ⟨hsim.2.symm, fun _ => lt_of_not_le hmd⟩
    · rw [if_neg hen] at hsim
      simp only [Option.some.injEq, Prod.mk.injEq] at hsim
      exact Or.inr ⟨hsim.2.symm, fun h => absurd h hen⟩

/-- C10: the `STATE_CHANGE` events of every successful `simulate` run form a
contiguous chain: each event's `from` differs from its `to`, the first
event's `from` is `"OFF"`, and each subsequent event's `from` equals the
previous event's `to`. -/
theorem C10_chain (points : List Point) (metric : String) (rule : Rule)
    (sampling_sec : Int) (sts : List StateSample) (evs : List Event)
    (hsim : simulate points metric rule sampling_sec = some (sts, evs)) :
    chainFrom "OFF" (evs.filter (fun e => e.type = "STATE_CHANGE")) = true := by
  obtain ⟨evs0, hchain, hsc, hcase⟩ :=
    simulate_split points metric rule sampling_sec sts evs hsim
  have hself : evs0.filter (fun e => e.type = "STATE_CHANGE") = evs0 := by
    apply List.filter_eq_self.mpr
    intro e he
    simp [hsc e he]
  rcases hcase with ⟨-, -, pl, -, hevs⟩ | ⟨hevs, -⟩
  · rw [hevs, List.filter_append, hself]
    simp [chainFrom]
    exact hchain
  · rw [hevs, hself]
    exact hchain

/-- C10 witness: the chain theorem applied to a run that emits one
transition. -/
theorem C10_chain_witness :
    chainFrom "OFF" (([⟨0, "STATE_CHANGE", Payload.change "OFF" "B"⟩] : List Event).filter
      (fun e => e.type = "STATE_CHANGE")) = true :=
  C10_chain [⟨0, some 5, none, none⟩] "watts" ruleAB 30 [⟨0, "B"⟩]
    [⟨0, "STATE_CHANGE", Payload.change "OFF" "B"⟩] (by decide)

/-- C7: for every non-empty series and rule with `drops_to_zero` enabled,
`simulate` counts the adjacent-sample transitions from a positive value to
exactly zero (absent treated as 0) and appends exactly one `DROPS_TO_ZERO`
event — after all `STATE_CHANGE` events and carrying the last sample's
timestamp — iff that count reaches `min_drops` (default 2). -/
theorem C7_drops (points : List Point) (metric : String) (rule : Rule) (sampling_sec : Int)
    (hne : points ≠ []) (hen : rule.patterns.drops_to_zero.enabled = true)
    (sts : List StateSample) (evs : List Event)
    (hsim : simulate points metric rule sampling_sec = some (sts, evs)) :
    ((rule.patterns.drops_to_zero.min_drops?.getD 2 ≤ (countDrops metric points : Int) →
      evs.filter (fun e => e.type = "DROPS_TO_ZERO")
          = [⟨(points.getLast hne).ts, "DROPS_TO_ZERO",
              Payload.drops (countDrops metric points)⟩]
        ∧ evs = evs.dropLast
            ++ [⟨(points.getLast hne).ts, "DROPS_TO_ZERO",
                Payload.drops (countDrops metric points)⟩]
        ∧ ∀ e ∈ evs.dropLast, e.type = "STATE_CHANGE"))
    ∧ ((countDrops metric points : Int) < rule.patterns.drops_to_zero.min_drops?.getD 2 →
      evs.filter (fun e => e.type = "DROPS_TO_ZERO") = []) := by
  obtain ⟨evs0, hchain, hsc, hcase⟩ :=
    simulate_split points metric rule sampling_sec sts evs hsim
  have hfilterSC : evs0.filter (fun e => e.type = "DROPS_TO_ZERO") = [] := by
    apply List.filter_eq_nil_iff.mpr
    intro e he
    simp [hsc e he]
  constructor
  · intro hmd
    rcases hcase with ⟨-, -, pl, hgl, hevs⟩ | ⟨-, hlt⟩
    · have hpl : pl = points.getLast hne := by
        rw [List.getLast?_eq_getLast points hne] at hgl
        exact (Option.some_injective _ hgl).symm
      subst hpl
      refine ⟨?_, ?_, ?_⟩
      · rw [hevs, List.filter_append, hfilterSC]
        simp
      · rw [hevs, List.dropLast_concat]
      · rw [hevs, List.dropLast_concat]
        exact hsc
    · exact absurd hmd (not_le.mpr (hlt hen))
  · intro hlt
    rcases hcase with ⟨-, hmd, -⟩ | ⟨hevs, -⟩
    · exact absurd hmd (not_le.mpr hlt)
    · rw [hevs]
      exact hfilterSC

/-- A four-sample series with exactly two positive-to-zero transitions. -/
def ptsC7 : List Point :=
  [⟨0, some 5, none, none⟩, ⟨30, some 0, none, none⟩,
   ⟨60, some 5, none, none⟩, ⟨90, some 0, none, none⟩]

theorem ptsC7_ne : ptsC7 ≠ [] := by decide

/-- A rule enabling `drops_to_zero` with `min_drops = 2`. -/
def ruleMD2 : Rule :=
  { patterns := { drops_to_zero := { enabled := true, min_drops? := some 2 } } }

/-- A rule enabling `drops_to_zero` with `min_drops = 3`. -/
def ruleMD3 : Rule :=
  { patterns := { drops_to_zero := { enabled := true, min_drops? := some 3 } } }

/-- C7 witness: on the two-drop series, `min_drops = 2` yields exactly the
one `DROPS_TO_ZERO` event and `min_drops = 3` yields none. -/
theorem C7_drops_witness :
    ([(⟨90, "DROPS_TO_ZERO", Payload.drops 2⟩ : Event)].filter
        (fun e => e.type = "DROPS_TO_ZERO"))
      = [⟨(ptsC7.getLast ptsC7_ne).ts, "DROPS_TO_ZERO",
          Payload.drops (countDrops "watts" ptsC7)⟩]
    ∧ ([] : List Event).filter (fun e => e.type = "DROPS_TO_ZERO") = [] :=
  ⟨((C7_drops ptsC7 "watts" ruleMD2 30 ptsC7_ne rfl
      [⟨0, "OFF"⟩, ⟨30, "OFF"⟩, ⟨60, "OFF"⟩, ⟨90, "OFF"⟩]
      [⟨90, "DROPS_TO_ZERO", Payload.drops 2⟩] (by decide)).1 (by decide)).1,
   (C7_drops ptsC7 "watts" ruleMD3 30 ptsC7_ne rfl
      [⟨0, "OFF"⟩, ⟨30, "OFF"⟩, ⟨60, "OFF"⟩, ⟨90, "OFF"⟩]
      [] (by decide)).2 (by decide)⟩

theorem floor_div4 (a : ℕ) : ⌊(a : ℚ)/4⌋ = (a / 4 : ℕ) := by
  have h : ((a:ℚ)/4) = ((a:ℤ):ℚ)/((4:ℕ):ℚ) := by push_cast; ring
  rw [h, Rat.floor_intCast_div_natCast]
  rw [show ((a/4 : ℕ) : ℤ) = (a:ℤ)/((4:ℕ):ℤ) from Int.ofNat_div a 4]

theorem ceil_div4 (a : ℕ) : ⌈(a : ℚ)/4⌉ = ((a + 3) / 4 : ℕ) := by
  have h1 : a ≤ 4 * ((a + 3) / 4) := by omega
  have h2 : 4 * ((a + 3) / 4) ≤ a + 3 := by omega
  have hc1 : ((a:ℚ)) ≤ 4 * (((a + 3) / 4 : ℕ) : ℚ) := by exact_mod_cast h1
  have hc2 : 4 * (((a + 3) / 4 : ℕ) : ℚ) ≤ (a:ℚ) + 3 := by exact_mod_cast h2
  rw [Int.ceil_eq_iff]
  rw [Int.cast_natCast]
  constructor
  · linarith
  · linarith

theorem coeff_div4 (a : ℕ) : (a:ℚ)/4 - ((a / 4 : ℕ) : ℚ) = ((a % 4 : ℕ) : ℚ)/4 := by
  have h := Nat.div_add_mod a 4
  have hc : (4 * ((a/4 : ℕ):ℚ) + ((a % 4 : ℕ):ℚ)) = (a:ℚ) := by exact_mod_cast h
  linarith

theorem interpQ_quarter (S : List ℚ) (n : ℕ) (hn : S.length = n + 1) :
    interpQ (1/4) S = S.getD (n/4) 0
      + (((n % 4 : ℕ):ℚ)/4) * (S.getD ((n+3)/4) 0 - S.getD (n/4) 0) := by
  simp only [interpQ, hn]
  rw [show (1/4 : ℚ) * (((n+1 : ℕ):ℚ) - 1) = (n:ℚ)/4 from by push_cast; ring]
  rw [floor_div4, ceil_div4, Int.toNat_natCast, Int.toNat_natCast, coeff_div4]

theorem interpQ_threequarter (S : List ℚ) (n : ℕ) (hn : S.length = n + 1) :
    interpQ (3/4) S = S.getD (3*n/4) 0
      + (((3*n % 4 : ℕ):ℚ)/4) * (S.getD ((3*n+3)/4) 0 - S.getD (3*n/4) 0) := by
  simp only [interpQ, hn]
  rw [show (3/4 : ℚ) * (((n+1 : ℕ):ℚ) - 1) = ((3*n : ℕ):ℚ)/4 from by push_cast; ring]
  rw [floor_div4, ceil_div4, Int.toNat_natCast, Int.toNat_natCast, coeff_div4]

theorem getD_eq_get (S : List ℚ) (i : ℕ) (h : i < S.length) :
    S.getD i 0 = S.get ⟨i, h⟩ := by
  rw [List.getD_eq_get?, List.get?_eq_get h, Option.getD_some]

theorem sorted_getD_mono (S : List ℚ) (hS : List.Sorted (· ≤ ·) S) (i j : ℕ)
    (hij : i ≤ j) (hj : j < S.length) : S.getD i 0 ≤ S.getD j 0 := by
  rcases eq_or_lt_of_le hij with rfl | hlt
  · exact le_refl _
  · rw [getD_eq_get S i (lt_trans hlt hj), getD_eq_get S j hj]
    exact List.pairwise_iff_get.mp hS ⟨i, lt_trans hlt hj⟩ ⟨j, hj⟩ hlt

theorem getD_map_clamp (low high : ℚ) (S : List ℚ) (i : ℕ) (h : i < S.length) :
    (S.map (clamp low high)).getD i 0 = clamp low high (S.getD i 0) := by
  have hm : i < (S.map (clamp low high)).length := by simpa using h
  rw [getD_eq_get _ i hm, getD_eq_get S i h, List.get_map]

theorem clamp_mem (low high v : ℚ) (h : low ≤ high) :
    low ≤ clamp low high v ∧ clamp low high v ≤ high := by
  unfold clamp
  rw [qmax_eq, qmin_eq]
  exact ⟨le_max_left _ _, max_le h (min_le_left _ _)⟩

theorem clamp_mono (low high : ℚ) (a b : ℚ) (h : a ≤ b) :
    clamp low high a ≤ clamp low high b := by
  unfold clamp
  rw [qmax_eq, qmax_eq, qmin_eq, qmin_eq]
  exact max_le_max le_rfl (min_le_min le_rfl h)

theorem sortVals_map_clamp (low high : ℚ) (V : List ℚ) :
    sortVals (V.map (clamp low high)) = (sortVals V).map (clamp low high) := by
  have hperm : List.Perm (sortVals (V.map (clamp low high))) ((sortVals V).map (clamp low high)) :=
    (List.perm_insertionSort _ _).trans (((List.perm_insertionSort (· ≤ ·) V).symm).map _)
  have h1 : List.Sorted (· ≤ ·) (sortVals (V.map (clamp low high))) :=
    List.sorted_insertionSort _ _
  have h2 : List.Sorted (· ≤ ·) ((sortVals V).map (clamp low high)) :=
    List.Pairwise.map _ (fun a b h => clamp_mono low high a b h)
      (List.sorted_insertionSort _ _)
  exact List.eq_of_perm_of_sorted hperm h1 h2

theorem endpoint_bounds (A B C D f1 f3 q1 q3 low high : ℚ)
    (hq1 : q1 = A + f1 * (B - A)) (hq3 : q3 = C + f3 * (D - C))
    (hlow : low = q1 - 3*(q3 - q1)) (hhigh : high = q3 + 3*(q3 - q1))
    (hAB : A ≤ B) (hCD : C ≤ D)
    (hf1a : 0 ≤ f1) (hf1b : f1 ≤ 3/4) (hf3a : 0 ≤ f3) (hf3b : f3 ≤ 3/4)
    (hcase : (B ≤ C ∧ (f3 = 0 → C = D) ∧ (f3 = 0 ∨ 1/4 ≤ f3))
             ∨ (A = C ∧ B = D ∧ f1 = 1/4 ∧ f3 = 3/4)) :
    low ≤ A ∧ D ≤ high := by
  rcases hcase with ⟨hBC, hz, hf3or⟩ | ⟨hACeq, hBDeq, hf1v, hf3v⟩
  · constructor
    · rw [hlow, hq1, hq3]
      nlinarith [mul_nonneg (by linarith : (0:ℚ) ≤ 3 - 4*f1) (by linarith : (0:ℚ) ≤ B - A),
        mul_nonneg hf3a (by linarith : (0:ℚ) ≤ D - C)]
    · rcases hf3or with hf30 | hf3c
      · have hCDeq := hz hf30
        rw [hhigh, hq1, hq3, ← hCDeq, hf30]
        nlinarith [mul_nonneg (by linarith : (0:ℚ) ≤ 1 - f1) (by linarith : (0:ℚ) ≤ B - A)]
      · rw [hhigh, hq1, hq3]
        nlinarith [mul_nonneg (by linarith : (0:ℚ) ≤ 1 - f1) (by linarith : (0:ℚ) ≤ B - A),
          mul_nonneg (by linarith : (0:ℚ) ≤ 4*f3 - 1) (by linarith : (0:ℚ) ≤ D - C)]
  · subst hACeq
    constructor
    · rw [hlow, hq1, hq3, ← hBDeq, hf1v, hf3v]
      linarith
    · rw [hhigh, hq1, hq3, ← hBDeq, hf1v, hf3v]
      linarith

theorem interp_clip_fixpoint (S : List ℚ) (hS : List.Sorted (· ≤ ·) S) (n : ℕ)
    (hn : S.length = n + 1) (low high : ℚ)
    (hlow : low = interpQ (1/4) S - 3 * (interpQ (3/4) S - interpQ (1/4) S))
    (hhigh : high = interpQ (3/4) S + 3 * (interpQ (3/4) S - interpQ (1/4) S)) :
    interpQ (1/4) (S.map (clamp low high)) = interpQ (1/4) S
    ∧ interpQ (3/4) (S.map (clamp low high)) = interpQ (3/4) S
    ∧ ∀ v ∈ S.map (clamp low high), low ≤ v ∧ v ≤ high := by
  have hl1 : n/4 < S.length := by rw [hn]; omega
  have hu1 : (n+3)/4 < S.length := by rw [hn]; omega
  have hl3 : 3*n/4 < S.length := by rw [hn]; omega
  have hu3 : (3*n+3)/4 < S.length := by rw [hn]; omega
  have hAB : S.getD (n/4) 0 ≤ S.getD ((n+3)/4) 0 :=
    sorted_getD_mono S hS _ _ (by omega) hu1
  have hCD : S.getD (3*n/4) 0 ≤ S.getD ((3*n+3)/4) 0 :=
    sorted_getD_mono S hS _ _ (by omega) hu3
  have hAC : S.getD (n/4) 0 ≤ S.getD (3*n/4) 0 :=
    sorted_getD_mono S hS _ _ (by omega) hl3
  have hBD : S.getD ((n+3)/4) 0 ≤ S.getD ((3*n+3)/4) 0 :=
    sorted_getD_mono S hS _ _ (by omega) hu3
  have hAD : S.getD (n/4) 0 ≤ S.getD ((3*n+3)/4) 0 :=
    sorted_getD_mono S hS _ _ (by omega) hu3
  have hf1a : (0:ℚ) ≤ ((n % 4 : ℕ):ℚ)/4 := by positivity
  have hf1b : ((n % 4 : ℕ):ℚ)/4 ≤ 3/4 := by
    have hc : ((n % 4 : ℕ):ℚ) ≤ 3 := by exact_mod_cast (by omega : n % 4 ≤ 3)
    linarith
  have hf3a : (0:ℚ) ≤ ((3*n % 4 : ℕ):ℚ)/4 := by positivity
  have hf3b : ((3*n % 4 : ℕ):ℚ)/4 ≤ 3/4 := by
    have hc : ((3*n % 4 : ℕ):ℚ) ≤ 3 := by exact_mod_cast (by omega : 3*n % 4 ≤ 3)
    linarith
  have hkey : low ≤ S.getD (n/4) 0 ∧ S.getD ((3*n+3)/4) 0 ≤ high := by
    refine endpoint_bounds _ _ _ _ _ _ _ _ _ _ (interpQ_quarter S n hn)
      (interpQ_threequarter S n hn) hlow hhigh hAB hCD hf1a hf1b hf3a hf3b ?_
    rcases eq_or_ne n 1 with rfl | hn1
    · right
      refine ⟨by norm_num, by norm_num, by norm_num, by norm_num⟩
    · left
      refine ⟨sorted_getD_mono S hS _ _ (by omega) hl3, ?_, ?_⟩
      · intro hf30
        have hnz : (3*n % 4 : ℕ) = 0 := by
          have : ((3*n % 4 : ℕ):ℚ) = 0 := by linarith
          exact_mod_cast this
        rw [show 3*n/4 = (3*n+3)/4 from by omega]
      · rcases Nat.eq_zero_or_pos (3*n % 4) with hz | hpos
        · left
          rw [hz]
          norm_num
        · right
          have hc : (1:ℚ) ≤ ((3*n % 4 : ℕ):ℚ) := by exact_mod_cast hpos
          linarith
  have hlh : low ≤ high := le_trans hkey.1 (le_trans hAD hkey.2)
  have hbA : low ≤ S.getD (n/4) 0 ∧ S.getD (n/4) 0 ≤ high :=
    ⟨hkey.1, le_trans hAD hkey.2⟩
  have hbB : low ≤ S.getD ((n+3)/4) 0 ∧ S.getD ((n+3)/4) 0 ≤ high :=
    ⟨le_trans hkey.1 hAB, le_trans hBD hkey.2⟩
  have hbC : low ≤ S.getD (3*n/4) 0 ∧ S.getD (3*n/4) 0 ≤ high :=
    ⟨le_trans hkey.1 hAC, le_trans hCD hkey.2⟩
  have hbD : low ≤ S.getD ((3*n+3)/4) 0 ∧ S.getD ((3*n+3)/4) 0 ≤ high :=
    ⟨le_trans hkey.1 hAD, hkey.2⟩
  have hlen' : (S.map (clamp low high)).length = n + 1 := by
    rw [List.length_map, hn]
  have hq1' := interpQ_quarter (S.map (clamp low high)) n hlen'
  have hq3' := interpQ_threequarter (S.map (clamp low high)) n hlen'
  rw [getD_map_clamp low high S _ hl1, getD_map_clamp low high S _ hu1,
    clamp_of_mem low high _ hbA.1 hbA.2, clamp_of_mem low high _ hbB.1 hbB.2] at hq1'
  rw [getD_map_clamp low high S _ hl3, getD_map_clamp low high S _ hu3,
    clamp_of_mem low high _ hbC.1 hbC.2, clamp_of_mem low high _ hbD.1 hbD.2] at hq3'
  refine ⟨hq1'.trans (interpQ_quarter S n hn).symm,
    hq3'.trans (interpQ_threequarter S n hn).symm, ?_⟩
  intro v hv
  obtain ⟨w, -, rfl⟩ := List.mem_map.mp hv
  exact clamp_mem low high w hlh

theorem npQuantile_clip_fixpoint (V : List ℚ) (hne : V ≠ []) (low high : ℚ)
    (hlow : low = npQuantile (1/4) V - 3 * (npQuantile (3/4) V - npQuantile (1/4) V))
    (hhigh : high = npQuantile (3/4) V + 3 * (npQuantile (3/4) V - npQuantile (1/4) V)) :
    npQuantile (1/4) (V.map (clamp low high)) = npQuantile (1/4) V
    ∧ npQuantile (3/4) (V.map (clamp low high)) = npQuantile (3/4) V
    ∧ ∀ v ∈ V.map (clamp low high), low ≤ v ∧ v ≤ high := by
  have hlen : (sortVals V).length = V.length :=
    (List.perm_insertionSort (· ≤ ·) V).length_eq
  obtain ⟨n, hn⟩ : ∃ n, (sortVals V).length = n + 1 := by
    rcases V with _ | ⟨a, t⟩
    · exact absurd rfl hne
    · exact ⟨t.length, by rw [hlen]; rfl⟩
  have hfix := interp_clip_fixpoint (sortVals V) (List.sorted_insertionSort _ _) n hn
    low high hlow hhigh
  refine ⟨?_, ?_, ?_⟩
  · show interpQ (1/4) (sortVals (V.map (clamp low high))) = interpQ (1/4) (sortVals V)
    rw [sortVals_map_clamp]
    exact hfix.1
  · show interpQ (3/4) (sortVals (V.map (clamp low high))) = interpQ (3/4) (sortVals V)
    rw [sortVals_map_clamp]
    exact hfix.2.1
  · intro v hv
    apply hfix.2.2
    have : v ∈ (sortVals V).map (clamp low high) := by
      apply (((List.perm_insertionSort (· ≤ ·) V).symm).map (clamp low high)).subset
      exact hv
    exact this

theorem clipPoint_ts (metric : String) (low high : ℚ) (p : Point) :
    (clipPoint metric low high p).ts = p.ts := by
  cases hg : getMetric p metric with
  | none => simp [clipPoint, hg]
  | some v =>
    simp only [clipPoint, hg]
    unfold setMetric
    split_ifs <;> rfl

theorem getMetric_setMetric (p : Point) (m : String) (w : ℚ) (v : ℚ)
    (h : getMetric p m = some v) :
    getMetric (setMetric p m w) m = some w := by
  unfold getMetric setMetric at *
  split_ifs at h ⊢ <;> simp_all

theorem getMetric_clipPoint (metric : String) (low high : ℚ) (p : Point) :
    getMetric (clipPoint metric low high p) metric
      = (getMetric p metric).map (clamp low high) := by
  cases hg : getMetric p metric with
  | none => simp [clipPoint, hg]
  | some v =>
    simp only [clipPoint, hg, Option.map_some']
    exact getMetric_setMetric p metric (clamp low high v) v hg

theorem getMetric_clipPoint_other (metric m : String) (low high : ℚ) (p : Point)
    (hne : m ≠ metric) :
    getMetric (clipPoint metric low high p) m = getMetric p m := by
  cases hg : getMetric p metric with
  | none => simp [clipPoint, hg]
  | some v =>
    simp only [clipPoint, hg]
    unfold getMetric setMetric
    split_ifs <;> simp_all

theorem median_single (v : ℚ) : median [v] = v := by
  unfold median
  rw [show sortVals [v] = [v] from rfl]
  norm_num

theorem filter_ts_singleton : ∀ (l : List Point),
    List.Pairwise (fun a b : Point => a.ts < b.ts) l →
    ∀ p ∈ l, l.filter (fun q => q.ts = p.ts) = [p] := by
  intro l
  induction l with
  | nil =>
    intro _ p hp
    exact absurd hp (List.not_mem_nil p)
  | cons x xs ih =>
    intro hpw p hp
    rw [List.pairwise_cons] at hpw
    rcases List.mem_cons.mp hp with rfl | hmem
    · rw [List.filter_cons_of_pos (by simp)]
      congr 1
      apply List.filter_eq_nil_iff.mpr
      intro q hq
      have hlt := hpw.1 q hq
      simp [ne_of_gt hlt]
    · rw [List.filter_cons_of_neg ?_]
      · exact ih hpw.2 p hmem
      · have hlt := hpw.1 p hmem
        simp [ne_of_lt hlt]

theorem medianOpt_match (o : Option ℚ) :
    medianOpt (match o with | some v => [v] | none => ([] : List ℚ)) = o := by
  cases o with
  | none => simp [medianOpt]
  | some v => simp [medianOpt, median_single]

theorem aggBucket_single (p : Point) : aggBucket [p] p.ts = p := by
  have hget : ∀ m : String, List.filterMap (fun q => getMetric q m) [p]
      = match getMetric p m with | some v => [v] | none => [] := by
    intro m
    cases h : getMetric p m <;> simp [h]
  unfold aggBucket
  cases p with
  | mk t w o lx =>
    simp only [hget]
    simp only [show getMetric ⟨t, w, o, lx⟩ "watts" = w from rfl,
      show getMetric ⟨t, w, o, lx⟩ "on" = o from rfl,
      show getMetric ⟨t, w, o, lx⟩ "lux" = lx from rfl]
    rw [medianOpt_match, medianOpt_match, medianOpt_match]

theorem sortByTs_strict (points : List Point) (hnd : (points.map Point.ts).Nodup) :
    List.Pairwise (fun a b : Point => a.ts < b.ts) (sortByTs points) := by
  have hsorted : List.Pairwise tsLe (sortByTs points) := List.sorted_insertionSort tsLe points
  have hnd2 : ((sortByTs points).map Point.ts).Nodup :=
    ((List.perm_insertionSort tsLe points).map Point.ts).nodup_iff.mpr hnd
  have hne : List.Pairwise (fun a b : Point => a.ts ≠ b.ts) (sortByTs points) :=
    List.pairwise_map.mp hnd2
  exact (hsorted.and hne).imp (fun h => lt_of_le_of_ne h.1 h.2)

theorem bucketPass_id (cl : List Point) (s : Int)
    (hstrict : List.Pairwise (fun a b : Point => a.ts < b.ts) cl)
    (hdiv : ∀ p ∈ cl, p.ts % s = 0) :
    (((cl.map (fun p => bucketTs s p.ts)).dedup).insertionSort (· ≤ ·)).map
      (fun b => aggBucket (cl.filter (fun p => bucketTs s p.ts = b)) b) = cl := by
  have hbt : ∀ p ∈ cl, bucketTs s p.ts = p.ts := fun p hp => by
    unfold bucketTs
    rw [hdiv p hp]
    ring
  have hmap1 : cl.map (fun p => bucketTs s p.ts) = cl.map Point.ts :=
    List.map_congr_left (fun p hp => hbt p hp)
  have hndts : (cl.map Point.ts).Nodup :=
    List.pairwise_map.mpr (hstrict.imp (fun h => ne_of_lt h))
  have hsortedts : List.Sorted (· ≤ ·) (cl.map Point.ts) :=
    List.pairwise_map.mpr (hstrict.imp (fun h => le_of_lt h))
  rw [hmap1, List.dedup_eq_self.mpr hndts, List.Sorted.insertionSort_eq hsortedts]
  rw [List.map_map]
  have hpt : ∀ p ∈ cl, ((fun b => aggBucket (cl.filter (fun q => bucketTs s q.ts = b)) b)
      ∘ Point.ts) p = (fun q => q) p := by
    intro p hp
    simp only [Function.comp]
    have hf : cl.filter (fun q => bucketTs s q.ts = p.ts)
        = cl.filter (fun q => q.ts = p.ts) :=
      List.filter_congr (fun q hq => by rw [hbt q hq])
    rw [hf, filter_ts_singleton cl hstrict p hp]
    exact aggBucket_single p
  rw [List.map_congr_left hpt, List.map_id']

theorem preprocess_uniform (points : List Point) (metric : String) (s : Int)
    (hnd : (points.map Point.ts).Nodup)
    (hdiv : ∀ p ∈ points, p.ts % s = 0)
    (hne : points ≠ [])
    (hvals : (sortByTs points).filterMap (fun p => getMetric p metric) ≠ []) :
    preprocess points metric s
      = (sortByTs points).map
          (clipPoint metric (clipBounds points metric).1 (clipBounds points metric).2) := by
  simp only [preprocess]
  rw [if_neg hne, if_neg hvals]
  apply bucketPass_id
  · rw [List.pairwise_map]
    exact (sortByTs_strict points hnd).imp (fun h => by rwa [clipPoint_ts, clipPoint_ts])
  · intro p hp
    obtain ⟨q, hq, rfl⟩ := List.mem_map.mp hp
    rw [clipPoint_ts]
    exact hdiv q ((List.perm_insertionSort tsLe points).subset hq)

theorem clipPoint_idem (metric : String) (low high : ℚ) (r : Point)
    (hb : ∀ v, getMetric r metric = some v → low ≤ v ∧ v ≤ high) :
    clipPoint metric low high r = r := by
  cases hg : getMetric r metric with
  | none => simp [clipPoint, hg]
  | some v =>
    obtain ⟨hl, hh⟩ := hb v hg
    simp only [clipPoint, hg]
    rw [clamp_of_mem _ _ _ hl hh]
    exact setMetric_of_getMetric _ _ _ hg

/-- C9: preprocess is idempotent on input already uniformly bucketed at
cadence s (all timestamps distinct and multiples of s, with positive s):
preprocess (preprocess x s) s = preprocess x s. The first pass sorts and
IQR-clips; because clipping leaves the interpolated quartiles unchanged,
the second pass recomputes the same bounds and clips a second time to no
effect, and each bucket is a singleton so aggregation is the identity. -/
theorem C9_idempotent (points : List Point) (metric : String) (s : Int)
    (hpos : 0 < s) (hnd : (points.map Point.ts).Nodup)
    (hdiv : ∀ p ∈ points, p.ts % s = 0) :
    preprocess (preprocess points metric s) metric s = preprocess points metric s := by
  by_cases hne : points = []
  · subst hne
    rfl
  by_cases hvals : (sortByTs points).filterMap (fun p => getMetric p metric) = []
  · have h1 : preprocess points metric s = sortByTs points := by
      simp only [preprocess]
      rw [if_neg hne, if_pos hvals]
    have hsorted : List.Sorted tsLe (sortByTs points) := List.sorted_insertionSort tsLe points
    have hss : sortByTs (sortByTs points) = sortByTs points :=
      List.Sorted.insertionSort_eq hsorted
    have hne2 : sortByTs points ≠ [] := by
      intro h
      exact hne ((List.perm_insertionSort tsLe points).symm.trans (h ▸ List.Perm.refl _)).eq_nil
    rw [h1]
    simp only [preprocess]
    rw [if_neg hne2, if_pos (by rw [hss]; exact hvals), hss]
  · -- main path
    have hlow : (clipBounds points metric).1
        = npQuantile (1/4) ((sortByTs points).filterMap (fun p => getMetric p metric))
          - 3 * (npQuantile (3/4) ((sortByTs points).filterMap (fun p => getMetric p metric))
            - npQuantile (1/4) ((sortByTs points).filterMap (fun p => getMetric p metric))) := rfl
    have hhigh : (clipBounds points metric).2
        = npQuantile (3/4) ((sortByTs points).filterMap (fun p => getMetric p metric))
          + 3 * (npQuantile (3/4) ((sortByTs points).filterMap (fun p => getMetric p metric))
            - npQuantile (1/4) ((sortByTs points).filterMap (fun p => getMetric p metric))) := rfl
    have hfix := npQuantile_clip_fixpoint
      ((sortByTs points).filterMap (fun p => getMetric p metric)) hvals
      (clipBounds points metric).1 (clipBounds points metric).2 hlow hhigh
    have h1 := preprocess_uniform points metric s hnd hdiv hne hvals
    -- facts about y := (sortByTs points).map (clipPoint metric low high)
    have hyts : ((sortByTs points).map (clipPoint metric (clipBounds points metric).1
        (clipBounds points metric).2)).map Point.ts = (sortByTs points).map Point.ts := by
      rw [List.map_map]
      exact List.map_congr_left (fun p _ => clipPoint_ts metric _ _ p)
    have hnd_y : (((sortByTs points).map (clipPoint metric (clipBounds points metric).1
        (clipBounds points metric).2)).map Point.ts).Nodup := by
      rw [hyts]
      exact ((List.perm_insertionSort tsLe points).map Point.ts).nodup_iff.mpr hnd
    have hdiv_y : ∀ p ∈ (sortByTs points).map (clipPoint metric (clipBounds points metric).1
        (clipBounds points metric).2), p.ts % s = 0 := by
      intro p hp
      obtain ⟨q, hq, rfl⟩ := List.mem_map.mp hp
      rw [clipPoint_ts]
      exact hdiv q ((List.perm_insertionSort tsLe points).subset hq)
    have hne_y : (sortByTs points).map (clipPoint metric (clipBounds points metric).1
        (clipBounds points metric).2) ≠ [] := by
      intro h
      rw [List.map_eq_nil] at h
      exact hne ((List.perm_insertionSort tsLe points).symm.trans
        (h ▸ List.Perm.refl _)).eq_nil
    have hsorted_y : List.Sorted tsLe ((sortByTs points).map
        (clipPoint metric (clipBounds points metric).1 (clipBounds points metric).2)) := by
      rw [List.Sorted, List.pairwise_map]
      refine (List.sorted_insertionSort tsLe points).imp ?_
      intro a b h
      unfold tsLe at *
      rwa [clipPoint_ts, clipPoint_ts]
    have hsy : sortByTs ((sortByTs points).map (clipPoint metric (clipBounds points metric).1
        (clipBounds points metric).2)) = (sortByTs points).map
          (clipPoint metric (clipBounds points metric).1 (clipBounds points metric).2) :=
      List.Sorted.insertionSort_eq hsorted_y
    have hVy : (sortByTs ((sortByTs points).map (clipPoint metric (clipBounds points metric).1
        (clipBounds points metric).2))).filterMap (fun p => getMetric p metric)
        = ((sortByTs points).filterMap (fun p => getMetric p metric)).map
            (clamp (clipBounds points metric).1 (clipBounds points metric).2) := by
      rw [hsy, List.filterMap_map]
      have hcong : (fun p => getMetric (clipPoint metric (clipBounds points metric).1
          (clipBounds points metric).2 p) metric)
          = fun p => (getMetric p metric).map (clamp (clipBounds points metric).1
              (clipBounds points metric).2) := by
        funext p
        exact getMetric_clipPoint metric _ _ p
      rw [show ((fun p => getMetric p metric) ∘ clipPoint metric (clipBounds points metric).1
          (clipBounds points metric).2) = fun p => getMetric (clipPoint metric
            (clipBounds points metric).1 (clipBounds points metric).2 p) metric from rfl]
      rw [hcong, ← List.map_filterMap]
    have hvals_y : (sortByTs ((sortByTs points).map
        (clipPoint metric (clipBounds points metric).1
          (clipBounds points metric).2))).filterMap (fun p => getMetric p metric) ≠ [] := by
      rw [hVy]
      intro h
      rw [List.map_eq_nil] at h
      exact hvals h
    have h2 := preprocess_uniform ((sortByTs points).map
        (clipPoint metric (clipBounds points metric).1 (clipBounds points metric).2))
      metric s hnd_y hdiv_y hne_y hvals_y
    -- second-pass bounds equal first-pass bounds
    have hcb1 : (clipBounds ((sortByTs points).map
        (clipPoint metric (clipBounds points metric).1 (clipBounds points metric).2))
          metric).1 = (clipBounds points metric).1 := by
      show npQuantile (1/4) ((sortByTs ((sortByTs points).map
          (clipPoint metric (clipBounds points metric).1
            (clipBounds points metric).2))).filterMap (fun p => getMetric p metric))
        - 3 * (npQuantile (3/4) ((sortByTs ((sortByTs points).map
            (clipPoint metric (clipBounds points metric).1
              (clipBounds points metric).2))).filterMap (fun p => getMetric p metric))
          - npQuantile (1/4) ((sortByTs ((sortByTs points).map
            (clipPoint metric (clipBounds points metric).1
              (clipBounds points metric).2))).filterMap (fun p => getMetric p metric)))
        = (clipBounds points metric).1
      rw [hVy, hfix.1, hfix.2.1, hlow]
    have hcb2 : (clipBounds ((sortByTs points).map
        (clipPoint metric (clipBounds points metric).1 (clipBounds points metric).2))
          metric).2 = (clipBounds points metric).2 := by
      show npQuantile (3/4) ((sortByTs ((sortByTs points).map
          (clipPoint metric (clipBounds points metric).1
            (clipBounds points metric).2))).filterMap (fun p => getMetric p metric))
        + 3 * (npQuantile (3/4) ((sortByTs ((sortByTs points).map
            (clipPoint metric (clipBounds points metric).1
              (clipBounds points metric).2))).filterMap (fun p => getMetric p metric))
          - npQuantile (1/4) ((sortByTs ((sortByTs points).map
            (clipPoint metric (clipBounds points metric).1
              (clipBounds points metric).2))).filterMap (fun p => getMetric p metric)))
        = (clipBounds points metric).2
      rw [hVy, hfix.1, hfix.2.1, hhigh]
    rw [h1, h2, hsy, hcb1, hcb2]
    -- y.map clip = y
    have hid : ∀ p ∈ (sortByTs points).map (clipPoint metric (clipBounds points metric).1
        (clipBounds points metric).2),
        clipPoint metric (clipBounds points metric).1 (clipBounds points metric).2 p
          = (fun q => q) p := by
      intro p hp
      obtain ⟨q, hq, rfl⟩ := List.mem_map.mp hp
      apply clipPoint_idem
      intro v hv
      rw [getMetric_clipPoint] at hv
      cases hg : getMetric q metric with
      | none =>
        rw [hg] at hv
        exact absurd hv (by simp)
      | some w =>
        rw [hg] at hv
        have hvw : v = clamp (clipBounds points metric).1 (clipBounds points metric).2 w := by
          simpa using hv.symm
        subst hvw
        apply hfix.2.2
        exact List.mem_map_of_mem _ (List.mem_filterMap.mpr ⟨q, hq, hg⟩)
    rw [List.map_congr_left hid, List.map_id']

/-- Witness for C9 on a concrete two-sample series at cadence 30. -/
theorem C9_idempotent_witness :
    (0 : Int) < 30
    ∧ (([⟨0, some 1, none, none⟩, ⟨30, some 2, none, none⟩] : List Point).map Point.ts).Nodup
    ∧ (∀ p ∈ ([⟨0, some 1, none, none⟩, ⟨30, some 2, none, none⟩] : List Point), p.ts % 30 = 0)
    ∧ preprocess (preprocess [⟨0, some 1, none, none⟩, ⟨30, some 2, none, none⟩] "watts" 30)
        "watts" 30
      = preprocess ([⟨0, some 1, none, none⟩, ⟨30, some 2, none, none⟩] : List Point)
          "watts" 30 :=
  ⟨by decide, by decide, by decide,
    C9_idempotent [⟨0, some 1, none, none⟩, ⟨30, some 2, none, none⟩] "watts" 30
      (by decide) (by decide) (by decide)⟩
